import Mathlib

/-!
# Verification of `tree-sitter-visitor`

A shallow embedding of the `tree-sitter-visitor` procedural macro
(`src/tree-sitter-visitor/src/lib.rs`): the identifier sanitizer
`sanitize_identifier`, the generated trait items (one `visit_<sanitized>`
method per node-type descriptor, plus an associated `ReturnType` and a
dispatching `visit` method), and the runtime behaviour of the generated
`visit` dispatcher and of the generated methods' default bodies.
-/

namespace TreeSitterVisitor

/-- The pass-through test of `sanitize_identifier` (lib.rs lines 60-64):
`('a'..='z').contains(&c) || ('A'..='Z').contains(&c) || ('0'..='9').contains(&c) || c == '_'`,
expressed on the character's code point (Rust `char` ranges compare scalar values). -/
def is_pass (c : Char) : Bool :=
  (97 ≤ c.toNat && c.toNat ≤ 122) || (65 ≤ c.toNat && c.toNat ≤ 90) ||
    (48 ≤ c.toNat && c.toNat ≤ 57) || c.toNat == 95

/-- The substitution table of `sanitize_identifier` (lib.rs lines 67-102): the
`match c` arms mapping each listed character to its mnemonic; the `_ => continue`
default becomes `none`. -/
def replacement (c : Char) : Option String :=
  if c = '~' then some "TILDE"
  else if c = Char.ofNat 96 then some "BQUOTE"
  else if c = '!' then some "BANG"
  else if c = '@' then some "AT"
  else if c = '#' then some "POUND"
  else if c = '$' then some "DOLLAR"
  else if c = '%' then some "PERCENT"
  else if c = '^' then some "CARET"
  else if c = '&' then some "AMP"
  else if c = '*' then some "STAR"
  else if c = '(' then some "LPAREN"
  else if c = ')' then some "RPAREN"
  else if c = '-' then some "DASH"
  else if c = '+' then some "PLUS"
  else if c = '=' then some "EQ"
  else if c = Char.ofNat 123 then some "LBRACE"
  else if c = Char.ofNat 125 then some "RBRACE"
  else if c = '[' then some "LBRACK"
  else if c = ']' then some "RBRACK"
  else if c = '\\' then some "BSLASH"
  else if c = '|' then some "PIPE"
  else if c = ':' then some "COLON"
  else if c = ';' then some "SEMI"
  else if c = Char.ofNat 34 then some "DQUOTE"
  else if c = Char.ofNat 39 then some "SQUOTE"
  else if c = '<' then some "LT"
  else if c = '>' then some "GT"
  else if c = ',' then some "COMMA"
  else if c = '.' then some "DOT"
  else if c = '?' then some "QMARK"
  else if c = '/' then some "SLASH"
  else if c = '\n' then some "LF"
  else if c = '\r' then some "CR"
  else if c = '\t' then some "TAB"
  else none

/-- The substitution table of lib.rs lines 67-101 as an association list,
in the order of the `match` arms (used to state per-entry properties of
`replacement` and to bound which mnemonics it can produce). -/
def substitutionTable : List (Char × String) :=
  [('~', "TILDE"), (Char.ofNat 96, "BQUOTE"), ('!', "BANG"), ('@', "AT"),
   ('#', "POUND"), ('$', "DOLLAR"), ('%', "PERCENT"), ('^', "CARET"),
   ('&', "AMP"), ('*', "STAR"), ('(', "LPAREN"), (')', "RPAREN"),
   ('-', "DASH"), ('+', "PLUS"), ('=', "EQ"), (Char.ofNat 123, "LBRACE"),
   (Char.ofNat 125, "RBRACE"), ('[', "LBRACK"), (']', "RBRACK"),
   ('\\', "BSLASH"), ('|', "PIPE"), (':', "COLON"), (';', "SEMI"),
   (Char.ofNat 34, "DQUOTE"), (Char.ofNat 39, "SQUOTE"), ('<', "LT"),
   ('>', "GT"), (',', "COMMA"), ('.', "DOT"), ('?', "QMARK"),
   ('/', "SLASH"), ('\n', "LF"), ('\r', "CR"), ('\t', "TAB")]

/-- The character-loop of `sanitize_identifier` (lib.rs lines 59-109), with the
accumulator `result` made explicit as a list of characters.  A pass-through
character is pushed; a character with a `replacement` first pushes a separating
underscore when `!result.is_empty() && !result.ends_with('_')` and then appends
the mnemonic; any other character is skipped (`continue`). -/
def sanitizeList (acc : List Char) : List Char → List Char
  | [] => acc
  | c :: rest =>
    if is_pass c then sanitizeList (acc ++ [c]) rest
    else
      match replacement c with
      | some rep =>
          sanitizeList
            ((if acc ≠ [] ∧ acc.getLast? ≠ some '_' then acc ++ ['_'] else acc)
              ++ rep.data) rest
      | none => sanitizeList acc rest

/-- The function `sanitize_identifier` (lib.rs lines 57-111). -/
def sanitize_identifier (name : String) : String :=
  String.mk (sanitizeList [] name.data)

/-! ## The Debug rendering used for the documentation string

`visitor_trait` builds each method's doc string as
`format!("Visits a node of type `{}`", format!("{:?}", raw_name).replace('`', "\\`"))`
(lib.rs lines 135-136).  `{:?}` on a `&str` wraps it in double quotes and
escapes each character. -/

/-- One character of Rust's `Debug` formatting for `str` (as invoked by
`format!("{:?}", raw_name)` in lib.rs line 135): tab, carriage return, line
feed, backslash and double quote get two-character escapes, control characters
get a `\u` escape written with its code point in lowercase hex; other
characters are emitted verbatim.  (Rust additionally `\u`-escapes
non-printable and grapheme-extending characters above U+007F; those are
treated as printable here, faithful for all ASCII inputs.) -/
def escapeDebugChar (c : Char) : List Char :=
  if c = '\t' then ['\\', 't']
  else if c = '\r' then ['\\', 'r']
  else if c = '\n' then ['\\', 'n']
  else if c = '\\' then ['\\', '\\']
  else if c = Char.ofNat 34 then ['\\', Char.ofNat 34]
  else if c.toNat < 32 || c.toNat == 127 then
    ['\\', 'u', Char.ofNat 123] ++ Nat.toDigits 16 c.toNat ++ [Char.ofNat 125]
  else [c]

/-- Rust's `format!("{:?}", s)` for a string `s`: the escaped characters
between double quotes. -/
def rust_debug (s : String) : String :=
  String.mk (Char.ofNat 34 :: s.data.flatMap escapeDebugChar ++ [Char.ofNat 34])

/-- The `.replace('`', "\\`")` step of lib.rs line 135. -/
def escape_backticks (s : String) : String :=
  String.mk (s.data.flatMap fun c =>
    if c = Char.ofNat 96 then ['\\', Char.ofNat 96] else [c])

/-- The `doc_name` of lib.rs line 135: the Debug rendering of the raw name with
backticks escaped. -/
def doc_name (raw : String) : String :=
  escape_backticks (rust_debug raw)

/-- The `doc_string` of lib.rs line 136. -/
def doc_string (raw : String) : String :=
  "Visits a node of type `" ++ doc_name raw ++ "`"

/-! ## The generated trait items -/

/-- One generated trait method (the `trait_fn` of lib.rs lines 138-143): its
name `visit_<sanitized>`, its `#[doc]` string, and the panic message of its
default body `unimplemented!(#sanitized_name)` (Rust's `unimplemented!` with an
argument panics with `"not implemented: "` followed by the argument). -/
structure TraitFn where
  name : String
  doc : String
  defaultMsg : String
deriving DecidableEq

/-- Builds the `trait_fn` for one descriptor with raw name `raw`
(lib.rs lines 131-143). -/
def mkTraitFn (raw : String) : TraitFn :=
  { name := "visit_" ++ sanitize_identifier raw
  , doc := doc_string raw
  , defaultMsg := "not implemented: " ++ sanitize_identifier raw }

/-- One `match_arm` of the generated `visit` dispatcher (lib.rs lines 145-147):
the raw name it is keyed on, paired with the name of the method it invokes. -/
def match_arm (raw : String) : String × String :=
  (raw, "visit_" ++ sanitize_identifier raw)

/-- A trait item of the emitted trait: the associated `type ReturnType`, the
`visit` dispatcher (carrying its match arms), a generated method, or a
consumer-declared item of the input trait (opaque to the generator, which
never inspects `input.items`). -/
inductive Item (α : Type) where
  | returnType : Item α
  | dispatch : List (String × String) → Item α
  | method : TraitFn → Item α
  | consumer : α → Item α
deriving DecidableEq

/-- The item list of the trait emitted by the `visitor_trait` macro for a
schema (the list of the descriptors' raw `type` names, in file order) and the
input trait's own items (lib.rs lines 129-170):
`[return_item, dispatch_visit_fn]` chained with the generated `trait_fns`
chained with `input.items`. -/
def visitor_trait {α : Type} (schema : List String) (inputItems : List α) :
    List (Item α) :=
  [Item.returnType, Item.dispatch (schema.map match_arm)]
    ++ schema.map (fun r => Item.method (mkTraitFn r))
    ++ inputItems.map Item.consumer

/-- The generated methods of an item list, in order. -/
def itemMethods {α : Type} : List (Item α) → List TraitFn
  | [] => []
  | Item.method f :: rest => f :: itemMethods rest
  | _ :: rest => itemMethods rest

/-- The arm lists of the dispatch items of an item list, in order. -/
def itemArms {α : Type} : List (Item α) → List (List (String × String))
  | [] => []
  | Item.dispatch arms :: rest => arms :: itemArms rest
  | _ :: rest => itemArms rest

/-- The consumer-declared items of an item list, in order. -/
def consumerItems {α : Type} : List (Item α) → List α
  | [] => []
  | Item.consumer a :: rest => a :: consumerItems rest
  | _ :: rest => consumerItems rest

/-! ## Runtime behaviour of the generated code -/

/-- A syntax-tree node as the generated code sees it: only its runtime kind
tag `node.kind()` matters. -/
structure TSNode where
  kind : String
deriving DecidableEq

/-- Outcome of calling a generated method or the dispatcher: a returned value,
or a panic with the given message. -/
inductive VisitResult (ρ : Type) where
  | ok : ρ → VisitResult ρ
  | panicked : String → VisitResult ρ
deriving DecidableEq

/-- Calling the generated method `visit_<sanitized>` on a node, for a consumer
whose overrides are given by `ov` (keyed by method name): an overriding
implementation is run; otherwise the generated default body
`unimplemented!(#sanitized_name)` panics (lib.rs lines 140-142). -/
def methodResult {ρ : Type} (ov : String → Option (TSNode → ρ))
    (sanitized : String) (n : TSNode) : VisitResult ρ :=
  match ov ("visit_" ++ sanitized) with
  | some h => VisitResult.ok (h n)
  | none => VisitResult.panicked ("not implemented: " ++ sanitized)

/-- The generated `visit` dispatcher run on node `n` (lib.rs lines 156-164):
`match node.kind()` against one arm per descriptor, in schema order; the first
arm whose raw name equals the kind invokes `self.visit_<sanitized>(node)`; the
wildcard arm panics naming the unknown kind. -/
def visit {ρ : Type} (ov : String → Option (TSNode → ρ)) (n : TSNode) :
    List String → VisitResult ρ
  | [] => VisitResult.panicked ("unknown node kind: " ++ n.kind)
  | raw :: rest =>
    if n.kind = raw then methodResult ov (sanitize_identifier raw) n
    else visit ov n rest

/-! ## Auxiliary predicates used in the stated properties -/

/-- No two adjacent characters of `l` are both underscores. -/
def noDouble (l : List Char) : Prop :=
  l.Chain' (fun a b => ¬(a = '_' ∧ b = '_'))

/-- A character that Rust's `Debug` formatting for strings renders verbatim
and that the backtick replacement leaves alone: printable ASCII other than
the double quote, the backslash, and the backtick. -/
def plainDebugChar (c : Char) : Bool :=
  (32 ≤ c.toNat && c.toNat ≤ 126) &&
    c.toNat != 34 && c.toNat != 92 && c.toNat != 96

/-! ## Helper lemmas about the sanitizer -/

theorem sanitizeList_pass_only (cs : List Char) :
    ∀ acc, (∀ c ∈ cs, is_pass c = true) → sanitizeList acc cs = acc ++ cs := by
  induction cs with
  | nil => intro acc _; simp [sanitizeList]
  | cons c rest ih =>
      intro acc h
      have hc : is_pass c = true := h c (by simp)
      simp only [sanitizeList, hc, if_true]
      rw [ih (acc ++ [c]) (fun d hd => h d (by simp [hd]))]
      simp

theorem sanitizeList_drop (cs : List Char) :
    ∀ acc, (∀ c ∈ cs, is_pass c = false ∧ replacement c = none) →
    sanitizeList acc cs = acc := by
  induction cs with
  | nil => intro acc _; simp [sanitizeList]
  | cons c rest ih =>
      intro acc h
      obtain ⟨hc, hr⟩ := h c (by simp)
      simp only [sanitizeList, hc, hr]
      exact ih acc (fun d hd => h d (by simp [hd]))

theorem replacement_eq_foldr (c : Char) :
    replacement c =
      substitutionTable.foldr (fun p acc => if c = p.1 then some p.2 else acc)
        none := rfl

theorem foldr_chain_mem {tbl : List (Char × String)} {c : Char} {r : String}
    (h : tbl.foldr (fun p acc => if c = p.1 then some p.2 else acc) none
          = some r) :
    (c, r) ∈ tbl := by
  induction tbl with
  | nil => exact Option.noConfusion h
  | cons p t ih =>
      obtain ⟨a, b⟩ := p
      simp only [List.foldr_cons] at h
      by_cases hc : c = a
      · rw [if_pos hc] at h
        injection h with h2
        subst hc
        subst h2
        exact List.mem_cons_self _ _
      · rw [if_neg hc] at h
        exact List.mem_cons_of_mem _ (ih h)

theorem replacement_mem {c : Char} {r : String} (h : replacement c = some r) :
    (c, r) ∈ substitutionTable :=
  foldr_chain_mem (replacement_eq_foldr c ▸ h)

theorem replacement_upper (c : Char) (r : String) (h : replacement c = some r) :
    r.data ≠ [] ∧ ∀ d ∈ r.data, 65 ≤ d.toNat ∧ d.toNat ≤ 90 := by
  have htbl : ∀ p ∈ substitutionTable,
      (p.2 : String).data ≠ [] ∧ ∀ d ∈ (p.2 : String).data,
        65 ≤ d.toNat ∧ d.toNat ≤ 90 := by decide
  exact htbl (c, r) (replacement_mem h)

theorem replacement_pass (c : Char) (r : String) (h : replacement c = some r) :
    ∀ d ∈ r.data, is_pass d = true ∧ d ≠ '_' := by
  intro d hd
  obtain ⟨-, hall⟩ := replacement_upper c r h
  obtain ⟨h1, h2⟩ := hall d hd
  refine ⟨by simp [is_pass]; omega, ?_⟩
  intro e
  rw [e] at h2
  exact absurd h2 (by decide)

theorem sanitizeList_all_pass (cs : List Char) :
    ∀ acc, (∀ d ∈ acc, is_pass d = true) →
    ∀ d ∈ sanitizeList acc cs, is_pass d = true := by
  induction cs with
  | nil => intro acc h; simpa [sanitizeList] using h
  | cons c rest ih =>
      intro acc hacc
      by_cases hc : is_pass c = true
      · simp only [sanitizeList, hc, if_true]
        refine ih (acc ++ [c]) ?_
        intro d hd
        rcases List.mem_append.1 hd with h | h
        · exact hacc d h
        · simp at h; subst h; exact hc
      · rw [Bool.not_eq_true] at hc
        cases hr : replacement c with
        | none =>
            simp only [sanitizeList, hc, hr]
            simp only [Bool.false_eq_true, if_false]
            exact ih acc hacc
        | some rep =>
            simp only [sanitizeList, hc, hr, Bool.false_eq_true, if_false]
            refine ih _ ?_
            intro d hd
            rcases List.mem_append.1 hd with h | h
            · split at h
              · rcases List.mem_append.1 h with h | h
                · exact hacc d h
                · simp at h; subst h; decide
              · exact hacc d h
            · exact (replacement_pass c rep hr d h).1

theorem noDouble_of_no_underscore {l : List Char} (h : ∀ d ∈ l, d ≠ '_') :
    noDouble l := by
  induction l with
  | nil => exact List.chain'_nil
  | cons a t ih =>
      cases t with
      | nil => exact List.chain'_singleton a
      | cons b t2 =>
          refine List.chain'_cons.2
            ⟨?_, ih fun d hd => h d (List.mem_cons_of_mem _ hd)⟩
          rintro ⟨ha, -⟩
          exact h a (by simp) ha

theorem noDouble_append {l₁ l₂ : List Char} (h1 : noDouble l₁) (h2 : noDouble l₂)
    (h3 : ∀ x ∈ l₁.getLast?, ∀ y ∈ l₂.head?, ¬(x = '_' ∧ y = '_')) :
    noDouble (l₁ ++ l₂) :=
  List.chain'_append.2 ⟨h1, h2, h3⟩

theorem sanitizeList_noDouble (cs : List Char) :
    ∀ acc, (∀ c ∈ cs, c ≠ '_') → noDouble acc → acc.head? ≠ some '_' →
    noDouble (sanitizeList acc cs) ∧ (sanitizeList acc cs).head? ≠ some '_' := by
  induction cs with
  | nil => intro acc _ h1 h2; exact ⟨h1, h2⟩
  | cons c rest ih =>
      intro acc hcs hnd hhd
      have hc_ne : c ≠ '_' := hcs c (by simp)
      have hrest : ∀ d ∈ rest, d ≠ '_' := fun d hd => hcs d (by simp [hd])
      by_cases hp : is_pass c = true
      · simp only [sanitizeList, hp, if_true]
        apply ih (acc ++ [c]) hrest
        · refine noDouble_append hnd (List.chain'_singleton c) ?_
          intro x _ y hy
          rw [Option.mem_def] at hy
          injection hy with hy
          rintro ⟨-, hy'⟩
          exact hc_ne (hy ▸ hy')
        · cases acc with
          | nil =>
              intro e
              injection e with e
              exact hc_ne e
          | cons a t => exact hhd
      · rw [Bool.not_eq_true] at hp
        cases hr : replacement c with
        | none =>
            simp only [sanitizeList, hp, hr, Bool.false_eq_true, if_false]
            exact ih acc hrest hnd hhd
        | some rep =>
            simp only [sanitizeList, hp, hr, Bool.false_eq_true, if_false]
            have hrep_ne : ∀ d ∈ rep.data, d ≠ '_' :=
              fun d hd => (replacement_pass c rep hr d hd).2
            have hrep_nd : noDouble rep.data := noDouble_of_no_underscore hrep_ne
            have hrep_hd : ∀ y ∈ rep.data.head?, y ≠ '_' := by
              intro y hy
              rw [Option.mem_def] at hy
              apply hrep_ne y
              cases hrd : rep.data with
              | nil => rw [hrd] at hy; exact Option.noConfusion hy
              | cons r0 rt =>
                  rw [hrd] at hy
                  injection hy with hy
                  rw [← hy]
                  simp
            by_cases hguard : acc ≠ [] ∧ acc.getLast? ≠ some '_'
        -- the `c` of this branch has a replacement: a separator may be pushed
            · rw [if_pos hguard]
              apply ih ((acc ++ ['_']) ++ rep.data) hrest
              · refine noDouble_append ?_ hrep_nd ?_
                · refine noDouble_append hnd (List.chain'_singleton '_') ?_
                  intro x hx y hy
                  rw [Option.mem_def] at hx
                  rintro ⟨hx', -⟩
                  exact hguard.2 (by rw [hx, hx'])
                · intro x _ y hy
                  rintro ⟨-, hy'⟩
                  exact hrep_hd y hy hy'
              · obtain ⟨a, t, rfl⟩ : ∃ a t, acc = a :: t := by
                  cases acc with
                  | nil => exact absurd rfl hguard.1
                  | cons a t => exact ⟨a, t, rfl⟩
                exact hhd
            · rw [if_neg hguard]
              apply ih (acc ++ rep.data) hrest
              · refine noDouble_append hnd hrep_nd ?_
                intro x _ y hy
                rintro ⟨-, hy'⟩
                exact hrep_hd y hy hy'
              · cases acc with
                | nil =>
                    intro e
                    exact hrep_hd '_' (by simpa using e) rfl
                | cons a t => exact hhd

/-! ## Claims about the sanitizer -/

/-- Claim C6: every character outside both the pass-through set and the
substitution table is silently dropped by the sanitizer; the empty input, and
any input made entirely of such unsupported characters, sanitizes to the empty
string (so the generated method name degenerates to `visit_`), without being
rejected. -/
theorem unsupported_chars_dropped :
    (∀ (acc : List Char) (c : Char) (rest : List Char),
        is_pass c = false → replacement c = none →
        sanitizeList acc (c :: rest) = sanitizeList acc rest)
    ∧ sanitize_identifier "" = ""
    ∧ (∀ s : String, (∀ c ∈ s.data, is_pass c = false ∧ replacement c = none) →
        sanitize_identifier s = "") := by
  refine ⟨?_, by decide, ?_⟩
  · intro acc c rest hc hr
    simp [sanitizeList, hc, hr]
  · intro s h
    unfold sanitize_identifier
    rw [sanitizeList_drop s.data [] h]

/-- Witness for C6 at the concrete unsupported character `' '` (space is in
neither the pass-through set nor the substitution table). -/
theorem unsupported_chars_dropped_witness :
    sanitize_identifier " " = "" :=
  unsupported_chars_dropped.2.2 " " (by decide)

/-- Claim C7: the sanitizer (a total Lean function) is the identity on every
string made only of pass-through characters (ASCII letters, digits,
underscore), hence idempotent on such identifier-safe strings; in particular
`sanitize_identifier "fizz" = "fizz"`. -/
theorem sanitize_total_and_identity :
    (∀ s : String, (∀ c ∈ s.data, is_pass c = true) →
        sanitize_identifier s = s ∧
        sanitize_identifier (sanitize_identifier s) = sanitize_identifier s)
    ∧ sanitize_identifier "fizz" = "fizz" := by
  have key : ∀ s : String, (∀ c ∈ s.data, is_pass c = true) →
      sanitize_identifier s = s := by
    intro s h
    unfold sanitize_identifier
    rw [sanitizeList_pass_only s.data [] h]
    cases s
    rfl
  exact ⟨fun s h => ⟨key s h, by rw [key s h]; exact key s h⟩, by decide⟩

/-- Witness for C7 at the identifier-safe string `"abc_123"`. -/
theorem sanitize_total_and_identity_witness :
    sanitize_identifier "abc_123" = "abc_123" :=
  (sanitize_total_and_identity.1 "abc_123" (by decide)).1

/-- Claim C3 counterexample: `sanitize_identifier "a,b"` is `"a_COMMAb"`, not the
`"a_COMMA_b"` stated by the claim — the separating underscore is inserted only
*before* a mnemonic, never between a mnemonic and a following pass-through
character. -/
theorem sanitize_comma_pair_counterexample :
    sanitize_identifier "a,b" = "a_COMMAb" ∧
    sanitize_identifier "a,b" ≠ "a_COMMA_b" := by decide

/-- Claim C3 (amended): the sanitizer maps each character listed in its
substitution table to that character's fixed mnemonic token (on each listed
character `replacement` yields the table's mnemonic, and sanitizing that
character alone yields the bare mnemonic); in particular
`sanitize_identifier "," = "COMMA"`, while `sanitize_identifier "a,b"` is
`"a_COMMAb"` — not the claimed `"a_COMMA_b"`, since no separator underscore is
inserted after a mnemonic. -/
theorem sanitize_table_mnemonics :
    (∀ p ∈ substitutionTable,
        replacement p.1 = some p.2 ∧
        sanitize_identifier (String.mk [p.1]) = p.2)
    ∧ sanitize_identifier "," = "COMMA"
    ∧ sanitize_identifier "a,b" = "a_COMMAb" := by
  exact ⟨by decide, by decide, by decide⟩

/-- Witness for C3 (amended) at the concrete table entry for `','`. -/
theorem sanitize_table_mnemonics_witness :
    replacement ',' = some "COMMA" ∧
    sanitize_identifier (String.mk [',']) = "COMMA" :=
  sanitize_table_mnemonics.1 (',', "COMMA") (by decide)

/-- Claim C10: every character of the sanitizer's output satisfies the
pass-through predicate, i.e. is an ASCII letter, an ASCII digit, or an
underscore — so `visit_<sanitized>` is made of identifier characters only. -/
theorem sanitize_output_chars (s : String) (c : Char)
    (hc : c ∈ (sanitize_identifier s).data) : is_pass c = true :=
  sanitizeList_all_pass s.data [] (by simp) c hc

/-- Witness for C10: the character `'C'` of `sanitize_identifier ","`. -/
theorem sanitize_output_chars_witness : is_pass 'C' = true :=
  sanitize_output_chars "," 'C' (by decide)

/-- Claim C4: the sanitizer inserts a separating underscore before a mnemonic
only when the accumulated result is nonempty and does not already end with an
underscore; consequently, on any input containing no underscore of its own (so
that every underscore of the output was introduced by the sanitizer), the
output never begins with an underscore and never contains two adjacent
underscores, even when the input's special characters are consecutive. -/
theorem sanitize_no_leading_or_double_underscore (s : String)
    (h : ∀ c ∈ s.data, c ≠ '_') :
    (sanitize_identifier s).data.head? ≠ some '_' ∧
    noDouble (sanitize_identifier s).data := by
  obtain ⟨h1, h2⟩ := sanitizeList_noDouble s.data [] h List.chain'_nil (by simp)
  exact ⟨h2, h1⟩

/-- Witness for C4 at `",,a,,b"`, whose special characters are consecutive and
include a leading run. -/
theorem sanitize_no_leading_or_double_underscore_witness :
    (sanitize_identifier ",,a,,b").data.head? ≠ some '_' ∧
    noDouble (sanitize_identifier ",,a,,b").data :=
  sanitize_no_leading_or_double_underscore ",,a,,b" (by decide)

/-! ## Claims about the generated dispatcher -/

/-- Claim C1: when the node's runtime kind tag equals the raw name of some
descriptor, the generated `visit` compares the tag against the raw names in
schema order and, at the first match, invokes that descriptor's generated
`visit_<sanitized>` method with the node and returns that method's result — so
for duplicate raw names the earliest descriptor's method is the one invoked.
-/
theorem visit_first_match {ρ : Type} (pre post : List String) (raw : String)
    (ov : String → Option (TSNode → ρ)) (n : TSNode)
    (hk : n.kind = raw) (hpre : ∀ r ∈ pre, n.kind ≠ r) :
    visit ov n (pre ++ raw :: post) =
      methodResult ov (sanitize_identifier raw) n := by
  induction pre with
  | nil =>
      simp only [List.nil_append, visit]
      rw [if_pos hk]
  | cons p ps ih =>
      have hop : n.kind ≠ p := hpre p (by simp)
      simp only [List.cons_append, visit]
      rw [if_neg hop]
      exact ih fun r hr => hpre r (by simp [hr])

/-- Witness for C1: schema `fizz, buzz, fizz`, node kind `buzz`, consumer
overriding only `visit_buzz`; dispatch returns the override's value. -/
theorem visit_first_match_witness :
    visit (fun m => if m = "visit_buzz" then some (fun _ => (2 : Nat)) else none)
        (TSNode.mk "buzz") (["fizz"] ++ "buzz" :: ["fizz"])
      = VisitResult.ok 2 := by
  rw [visit_first_match ["fizz"] ["fizz"] "buzz" _ _ rfl (by decide)]
  rfl

/-- Claim C5: the generated `visit` on a node whose kind matches no descriptor panics — it
produces no result value — with a diagnostic naming the unmatched kind; and a
generated `visit_<sanitized>` method that the consumer has not overridden
panics unconditionally, carrying the sanitized identifier in the diagnostic
payload of its `unimplemented!` default body. -/
theorem visit_unmatched_and_default_panic {ρ : Type} :
    (∀ (schema : List String) (ov : String → Option (TSNode → ρ)) (n : TSNode),
        n.kind ∉ schema →
        visit ov n schema =
          VisitResult.panicked ("unknown node kind: " ++ n.kind))
    ∧ (∀ (raw : String) (ov : String → Option (TSNode → ρ)) (n : TSNode),
        ov ("visit_" ++ sanitize_identifier raw) = none →
        methodResult ov (sanitize_identifier raw) n =
          VisitResult.panicked
            ("not implemented: " ++ sanitize_identifier raw)) := by
  constructor
  · intro schema ov n hn
    induction schema with
    | nil => rfl
    | cons r rs ih =>
        have hne : n.kind ≠ r := fun e => hn (by simp [e])
        simp only [visit]
        rw [if_neg hne]
        exact ih fun hm => hn (List.mem_cons_of_mem _ hm)
  · intro raw ov n hov
    unfold methodResult
    rw [hov]

/-- Witness for C5: an empty consumer (no overrides) panics both on an unknown
kind `qux` and on the unoverridden method for `fizz`. -/
theorem visit_unmatched_and_default_panic_witness :
    visit (fun _ => (none : Option (TSNode → Nat))) (TSNode.mk "qux")
        ["fizz", "buzz"]
      = VisitResult.panicked ("unknown node kind: " ++ "qux")
    ∧ methodResult (fun _ => (none : Option (TSNode → Nat)))
        (sanitize_identifier "fizz") (TSNode.mk "fizz")
      = VisitResult.panicked ("not implemented: " ++ sanitize_identifier "fizz") :=
  ⟨visit_unmatched_and_default_panic.1 ["fizz", "buzz"] _ _ (by decide),
   visit_unmatched_and_default_panic.2 "fizz" _ _ rfl⟩

/-! ## Claims about the structure of the emitted trait -/

theorem itemMethods_append {α : Type} (l1 l2 : List (Item α)) :
    itemMethods (l1 ++ l2) = itemMethods l1 ++ itemMethods l2 := by
  induction l1 with
  | nil => rfl
  | cons i t ih => cases i <;> simp [itemMethods, ih]

theorem itemArms_append {α : Type} (l1 l2 : List (Item α)) :
    itemArms (l1 ++ l2) = itemArms l1 ++ itemArms l2 := by
  induction l1 with
  | nil => rfl
  | cons i t ih => cases i <;> simp [itemArms, ih]

theorem consumerItems_append {α : Type} (l1 l2 : List (Item α)) :
    consumerItems (l1 ++ l2) = consumerItems l1 ++ consumerItems l2 := by
  induction l1 with
  | nil => rfl
  | cons i t ih => cases i <;> simp [consumerItems, ih]

theorem itemMethods_map_method {α : Type} (schema : List String) :
    itemMethods ((schema.map fun r => Item.method (mkTraitFn r)) : List (Item α))
      = schema.map mkTraitFn := by
  induction schema with
  | nil => rfl
  | cons r rs ih => simp [itemMethods, ih]

theorem itemMethods_map_consumer {α : Type} (inp : List α) :
    itemMethods (inp.map Item.consumer) = [] := by
  induction inp with
  | nil => rfl
  | cons a t ih => simp [itemMethods, ih]

theorem itemArms_map_method {α : Type} (schema : List String) :
    itemArms ((schema.map fun r => Item.method (mkTraitFn r)) : List (Item α))
      = [] := by
  induction schema with
  | nil => rfl
  | cons r rs ih => simp [itemArms, ih]

theorem itemArms_map_consumer {α : Type} (inp : List α) :
    itemArms (inp.map Item.consumer) = [] := by
  induction inp with
  | nil => rfl
  | cons a t ih => simp [itemArms, ih]

theorem consumerItems_map_method {α : Type} (schema : List String) :
    consumerItems
        ((schema.map fun r => Item.method (mkTraitFn r)) : List (Item α))
      = [] := by
  induction schema with
  | nil => rfl
  | cons r rs ih => simp [consumerItems, ih]

theorem consumerItems_map_consumer {α : Type} (inp : List α) :
    consumerItems (inp.map Item.consumer) = inp := by
  induction inp with
  | nil => rfl
  | cons a t ih => simp [consumerItems, ih]

/-- Claim C2: for each descriptor the emitted trait holds exactly one generated
method (named `visit_<sanitize(raw)>`) and there is exactly one dispatcher,
whose arms are keyed on the descriptors' raw names, methods and arms both in
schema order; duplicate raw names each contribute their own method and their
own arm. -/
theorem visitor_trait_methods_and_arms {α : Type} (schema : List String)
    (inp : List α) :
    itemMethods (visitor_trait schema inp) = schema.map mkTraitFn
    ∧ (itemMethods (visitor_trait schema inp)).map TraitFn.name
        = schema.map (fun r => "visit_" ++ sanitize_identifier r)
    ∧ itemArms (visitor_trait schema inp) = [schema.map match_arm]
    ∧ (schema.map match_arm).map Prod.fst = schema := by
  have h1 : itemMethods (visitor_trait schema inp) = schema.map mkTraitFn := by
    simp [visitor_trait, itemMethods, itemMethods_append,
      itemMethods_map_method, itemMethods_map_consumer]
  refine ⟨h1, ?_, ?_, ?_⟩
  · rw [h1, List.map_map]
    rfl
  · simp [visitor_trait, itemArms, itemArms_append, itemArms_map_method,
      itemArms_map_consumer]
  · rw [List.map_map]
    exact List.map_id schema

/-- Claim C9: the decoration-style invocation keeps every consumer-declared item
of the input trait unchanged (and recoverable in order), places all generated
items before them, and adds the associated `ReturnType`, the `visit`
dispatcher, and one generated method per descriptor. -/
theorem visitor_trait_frame {α : Type} (schema : List String) (inp : List α) :
    consumerItems (visitor_trait schema inp) = inp
    ∧ visitor_trait schema inp
        = visitor_trait schema ([] : List α) ++ inp.map Item.consumer
    ∧ Item.returnType ∈ visitor_trait schema inp
    ∧ Item.dispatch (schema.map match_arm) ∈ visitor_trait schema inp
    ∧ ∀ r ∈ schema, Item.method (mkTraitFn r) ∈ visitor_trait schema inp := by
  refine ⟨?_, ?_, ?_, ?_, ?_⟩
  · simp [visitor_trait, consumerItems, consumerItems_append,
      consumerItems_map_method, consumerItems_map_consumer]
  · simp [visitor_trait]
  · simp [visitor_trait]
  · simp [visitor_trait]
  · intro r hr
    exact List.mem_append.2 (Or.inl (List.mem_append.2
      (Or.inr (List.mem_map.2 ⟨r, hr, rfl⟩))))

/-- Witness for C9 at schema `["fizz"]` and one consumer-declared item `7`. -/
theorem visitor_trait_frame_witness :
    consumerItems (visitor_trait ["fizz"] [(7 : Nat)]) = [7]
    ∧ Item.method (mkTraitFn "fizz") ∈ visitor_trait ["fizz"] [(7 : Nat)] :=
  ⟨(visitor_trait_frame ["fizz"] [(7 : Nat)]).1,
   (visitor_trait_frame ["fizz"] [(7 : Nat)]).2.2.2.2 "fizz" (by decide)⟩

/-! ## Claims about the documentation string -/

theorem plainDebugChar_iff {c : Char} :
    plainDebugChar c = true ↔
      32 ≤ c.toNat ∧ c.toNat ≤ 126 ∧ c.toNat ≠ 34 ∧ c.toNat ≠ 92 ∧
        c.toNat ≠ 96 := by
  simp [plainDebugChar, and_assoc]

theorem escapeDebugChar_plain {c : Char} (h : plainDebugChar c = true) :
    escapeDebugChar c = [c] := by
  obtain ⟨h1, h2, h3, h4, h5⟩ := plainDebugChar_iff.1 h
  have e1 : c ≠ '\t' := by intro e; rw [e] at h1; exact absurd h1 (by decide)
  have e2 : c ≠ '\r' := by intro e; rw [e] at h1; exact absurd h1 (by decide)
  have e3 : c ≠ '\n' := by intro e; rw [e] at h1; exact absurd h1 (by decide)
  have e4 : c ≠ '\\' := fun e => h4 (by rw [e]; decide)
  have e5 : c ≠ Char.ofNat 34 := fun e => h3 (by rw [e]; decide)
  have e6 : ¬((c.toNat < 32 || c.toNat == 127) = true) := by
    simp only [Bool.or_eq_true, decide_eq_true_eq, beq_iff_eq]
    omega
  unfold escapeDebugChar
  rw [if_neg e1, if_neg e2, if_neg e3, if_neg e4, if_neg e5, if_neg e6]

theorem flatMap_escapeDebug_plain {l : List Char}
    (h : ∀ c ∈ l, plainDebugChar c = true) :
    l.flatMap escapeDebugChar = l := by
  induction l with
  | nil => rfl
  | cons a t ih =>
      rw [List.flatMap_cons, escapeDebugChar_plain (h a (by simp)),
        ih fun c hc => h c (by simp [hc])]
      rfl

theorem flatMap_backtick_id {l : List Char} (h : ∀ c ∈ l, c ≠ Char.ofNat 96) :
    (l.flatMap fun c =>
      if c = Char.ofNat 96 then ['\\', Char.ofNat 96] else [c]) = l := by
  induction l with
  | nil => rfl
  | cons a t ih =>
      rw [List.flatMap_cons, if_neg (h a (by simp)),
        ih fun c hc => h c (by simp [hc])]
      rfl

/-- Claim C8 counterexample: at raw name `"fizz"` the generated method's doc
string is `Visits a node of type `"fizz"`` — the Debug rendering wraps the raw
name in literal double quotes (and the sentence is capitalized) — not the
claimed `visits a node of type `fizz``. -/
theorem doc_string_counterexample :
    (mkTraitFn "fizz").doc = "Visits a node of type `\"fizz\"`" ∧
    (mkTraitFn "fizz").doc ≠ "visits a node of type `fizz`" := by decide

/-- Claim C8 (amended): each generated method's doc string is
`Visits a node of type `D``, where `D` is the Rust `Debug` rendering of the
raw name with backticks escaped; for raw names made of printable ASCII
characters other than double quote, backslash and backtick, `D` is the raw
name itself wrapped in literal double quotes, so the doc string embeds the
raw name verbatim between quote marks. -/
theorem doc_string_embeds_raw_name (raw : String)
    (h : ∀ c ∈ raw.data, plainDebugChar c = true) :
    (mkTraitFn raw).doc = "Visits a node of type `\"" ++ raw ++ "\"`" := by
  have hq : "Visits a node of type `\"" = "Visits a node of type `" ++ "\"" :=
    by decide
  have hq2 : ("\"`" : String) = "\"" ++ "`" := by decide
  have hbt : ∀ c ∈ Char.ofNat 34 :: raw.data ++ [Char.ofNat 34],
      c ≠ Char.ofNat 96 := by
    intro c hc
    rcases List.mem_cons.1 hc with h1 | h1
    · subst h1; decide
    · rcases List.mem_append.1 h1 with h2 | h2
      · intro e
        exact absurd ((plainDebugChar_iff.1 (h c h2)).2.2.2.2) (by rw [e]; simp)
      · simp at h2; subst h2; decide
  show doc_string raw = _
  unfold doc_string doc_name rust_debug escape_backticks
  rw [flatMap_escapeDebug_plain h, flatMap_backtick_id hbt, hq, hq2]
  apply String.ext
  simp [String.data_append]

/-- Witness for C8 (amended) at the raw name `"fizz"`. -/
theorem doc_string_embeds_raw_name_witness :
    (mkTraitFn "fizz").doc = "Visits a node of type `\"" ++ "fizz" ++ "\"`" :=
  doc_string_embeds_raw_name "fizz" (by decide)

end TreeSitterVisitor
